import Mathlib

/-!
Verification of the segmentation-and-reassembly (SAR) transport protocol of
the `nearby` repository: the packet wire format, the packetizer and its
reassembly state machine, the cyclic sequence-number generator, the write
request life-cycle, plus two utilities present in the tree
(`BooleanMediumSelector` and the argument validation of
`BluetoothClassicMedium::ConnectToService`).
-/

/-- Modelled from the spec: the fixed header size of the wire format is
missing from the tree.  The end-to-end scenario of the spec fixes the
header at 2 bytes ("max packet size 20, header size 2"). -/
def headerSize : Nat := 2

/-- Modelled from the spec: the width of the cyclic counter space is
missing from the tree.  The spec's example width is 3 bits, giving the
cyclic range [0, 7]. -/
def spaceSize : Nat := 8

/-- Modelled from the spec: the two kinds of traffic multiplexed on the
packet stream. -/
inductive PacketKind where
  | control
  | data
  deriving DecidableEq

/-- Modelled from the spec: a packet produced by the packetizer, before a
counter has been stamped on it by the write request. -/
structure PacketSpec where
  kind : PacketKind
  isFirst : Bool
  isLast : Bool
  payload : List Nat
  deriving DecidableEq

/-- Modelled from the spec: a decoded wire packet, counter included. -/
structure Packet where
  kind : PacketKind
  isFirst : Bool
  isLast : Bool
  counter : Nat
  payload : List Nat
  deriving DecidableEq

/-- Modelled from the spec: the error taxonomy of the protocol core. -/
inductive ProtoError where
  | invalidArgument
  | malformedPacket
  | messageTooLarge
  deriving DecidableEq

/-- Modelled from the spec: the protocol-level ordering violations
detected during reassembly. -/
inductive FramingError where
  | unexpectedFirstPacket
  | unexpectedContinuation
  | sequenceGap
  deriving DecidableEq

/-- Modelled from the spec: the outcome of feeding one packet to the
reassembler. -/
inductive ReassemblyResult where
  | incomplete
  | complete (msg : List Nat)
  | framingError (e : FramingError)
  deriving DecidableEq

/-- Modelled from the spec: the reassembly state of the packetizer's
decode path: an in-progress flag, the bytes accumulated so far and the
next expected counter. -/
structure ReassemblyState where
  inProgress : Bool
  buffer : List Nat
  expectedNextCounter : Nat
  deriving DecidableEq

/-- Modelled from the spec: the cleared reassembly state. -/
def initReassembly : ReassemblyState :=
  { inProgress := false, buffer := [], expectedNextCounter := 0 }

/-- Modelled from the spec: split a payload into chunks of `c` bytes, the
last chunk possibly shorter; a payload of at most `c` bytes (the empty
payload included) yields exactly one chunk.  The fuel argument bounds the
recursion and is initialised to the payload length, which suffices
whenever `0 < c`. -/
def splitChunksAux : Nat → List Nat → Nat → List (List Nat)
  | 0, payload, _ => [payload]
  | fuel + 1, payload, c =>
    if payload.length ≤ c then [payload]
    else payload.take c :: splitChunksAux fuel (payload.drop c) c

/-- Modelled from the spec: mark the first chunk's packet
`is_first_packet` and the last chunk's packet `is_last_packet`; a
single-chunk message carries both flags on its one packet. -/
def markChunks (kind : PacketKind) (firstFlag : Bool) :
    List (List Nat) → List PacketSpec
  | [] => []
  | [ch] => [{ kind := kind, isFirst := firstFlag, isLast := true, payload := ch }]
  | ch :: ch2 :: tl =>
    { kind := kind, isFirst := firstFlag, isLast := false, payload := ch } ::
      markChunks kind false (ch2 :: tl)

/-- Modelled from the spec: fragmentation.  `chunk_size = max_packet_size
− header_size`; fails with `InvalidArgument` if `chunk_size ≤ 0`;
otherwise splits the payload into chunks and marks first/last flags.
Counters are assigned later by the write request. -/
def Packetize (kind : PacketKind) (payload : List Nat) (maxPacketSize : Nat) :
    Except ProtoError (List PacketSpec) :=
  if maxPacketSize ≤ headerSize then
    .error .invalidArgument
  else
    .ok (markChunks kind true
      (splitChunksAux payload.length payload (maxPacketSize - headerSize)))

/-- Modelled from the spec: the reassembly step `OnPacketReceived`.  A
first-fragment packet while not in progress starts (or, if it is also the
last fragment, immediately completes) a message; a first-fragment packet
while in progress, a continuation while not in progress, and a counter
mismatch are framing errors, each clearing the partial state; a matching
continuation appends its payload and advances the expected counter. -/
def OnPacketReceived (st : ReassemblyState) (p : Packet) :
    ReassemblyState × ReassemblyResult :=
  if p.isFirst then
    if st.inProgress then
      (initReassembly, .framingError .unexpectedFirstPacket)
    else if p.isLast then
      (initReassembly, .complete p.payload)
    else
      ({ inProgress := true, buffer := p.payload,
         expectedNextCounter := (p.counter + 1) % spaceSize }, .incomplete)
  else
    if !st.inProgress then
      (initReassembly, .framingError .unexpectedContinuation)
    else if p.counter ≠ st.expectedNextCounter then
      (initReassembly, .framingError .sequenceGap)
    else if p.isLast then
      (initReassembly, .complete (st.buffer ++ p.payload))
    else
      ({ inProgress := true, buffer := st.buffer ++ p.payload,
         expectedNextCounter := (st.expectedNextCounter + 1) % spaceSize },
       .incomplete)

/-- Feed an ordered list of packets to the reassembler, collecting the
outcome of every step. -/
def feed (st : ReassemblyState) : List Packet → ReassemblyState × List ReassemblyResult
  | [] => (st, [])
  | p :: ps =>
    ((feed (OnPacketReceived st p).1 ps).1,
     (OnPacketReceived st p).2 :: (feed (OnPacketReceived st p).1 ps).2)

/-- Modelled from the spec: the write request stamps each packet spec, in
order, with consecutive values of the sequence-number generator, which
wrap around the cyclic space. -/
def stampPackets (v : Nat) : List PacketSpec → List Packet
  | [] => []
  | s :: rest =>
    { kind := s.kind, isFirst := s.isFirst, isLast := s.isLast,
      counter := v % spaceSize, payload := s.payload } :: stampPackets (v + 1) rest

/-- Modelled from the spec: the connection-scoped cyclic counter. -/
structure SequenceNumberGenerator where
  next_value : Nat
  deriving DecidableEq

/-- Modelled from the spec: the generator starts at the fixed initial
value 0 on each new logical connection. -/
def SequenceNumberGenerator.initial : SequenceNumberGenerator :=
  { next_value := 0 }

/-- Modelled from the spec: `Next()` returns the current value, then
advances with wraparound. -/
def SequenceNumberGenerator.Next (g : SequenceNumberGenerator) :
    Nat × SequenceNumberGenerator :=
  (g.next_value, { next_value := (g.next_value + 1) % spaceSize })

/-- Modelled from the spec: `Reset()` sets `next_value` back to the
initial value. -/
def SequenceNumberGenerator.Reset (_g : SequenceNumberGenerator) :
    SequenceNumberGenerator :=
  SequenceNumberGenerator.initial

/-- The list of values returned by `n` successive `Next()` calls. -/
def runNext (g : SequenceNumberGenerator) : Nat → List Nat
  | 0 => []
  | n + 1 => (g.Next).1 :: runNext (g.Next).2 n

/-- Modelled from the spec: the wire header.  One header byte holds 1 bit
of packet kind, 1 bit is-first, 1 bit is-last and 3 bits of counter, with
the 2 remaining bits reserved and zero-filled; a second, fully reserved
byte pads the header to the 2-byte header unit. -/
def encodeHeaderByte (kind : PacketKind) (isFirst isLast : Bool) (counter : Nat) : Nat :=
  (if kind = .data then 128 else 0) + (if isFirst then 64 else 0) +
    (if isLast then 32 else 0) + counter * 4

/-- Modelled from the spec: `Encode` produces the wire representation,
failing with `InvalidArgument` if the payload does not fit in the
negotiated maximum packet size or the counter exceeds the cyclic space. -/
def Packet.Encode (kind : PacketKind) (isFirst isLast : Bool) (counter : Nat)
    (payload : List Nat) (maxPacketSize : Nat) : Except ProtoError (List Nat) :=
  if maxPacketSize < payload.length + headerSize then
    .error .invalidArgument
  else if spaceSize ≤ counter then
    .error .invalidArgument
  else
    .ok (encodeHeaderByte kind isFirst isLast counter :: 0 :: payload)

/-- Modelled from the spec: the reserved header bits must be zero-filled;
any other value is unrecognized. -/
def reservedBitsOk : List Nat → Bool
  | b0 :: b1 :: _ => b0 % 4 == 0 && b1 == 0
  | _ => true

/-- Modelled from the spec: `Decode` fails with `MalformedPacket` if the
byte length is below the header size or the reserved bits hold an
unrecognized (non-zero) value; otherwise it reads the header fields back
and takes the remaining bytes as the payload. -/
def Packet.Decode : List Nat → Except ProtoError Packet
  | b0 :: b1 :: rest =>
    if b0 % 4 == 0 && b1 == 0 then
      .ok { kind := if b0 / 128 % 2 = 1 then .data else .control,
            isFirst := b0 / 64 % 2 = 1, isLast := b0 / 32 % 2 = 1,
            counter := b0 / 4 % 8, payload := rest }
    else
      .error .malformedPacket
  | _ => .error .malformedPacket

/-- Modelled from the spec: the write request completion states. -/
inductive WRState where
  | pending
  | inFlight
  | completed
  | failed
  | cancelled
  deriving DecidableEq

/-- Modelled from the spec: the events that drive a write request:
`Start`, the asynchronous submission results, and `Cancel`. -/
inductive WREvent where
  | start
  | submitOk
  | submitErr
  | cancel
  deriving DecidableEq

/-- Modelled from the spec: the terminal result reported to the caller,
exactly one of completed, failed or cancelled. -/
inductive WROutcome where
  | success
  | failure
  | cancelledOutcome
  deriving DecidableEq

/-- Modelled from the spec: a write request owns its ordered packet
sequence, the index of the next unsent packet and its completion state. -/
structure WriteRequest where
  packets : List PacketSpec
  sendIndex : Nat
  state : WRState
  deriving DecidableEq

/-- The three final states of the write request state machine. -/
def isTerminal : WRState → Bool
  | .completed => true
  | .failed => true
  | .cancelled => true
  | _ => false

/-- Modelled from the spec: one transition of the write request state
machine.  Returns the new request, the result reported to the caller (if
any) and the index of the fragment submitted to the transport (if any).
Terminal states are final: a late submission result is discarded and
`Cancel()` is a no-op. -/
def wrStep (w : WriteRequest) (e : WREvent) :
    WriteRequest × Option WROutcome × Option Nat :=
  if isTerminal w.state then
    (w, none, none)
  else
    match e with
    | .start =>
      if w.state = .pending then
        ({ w with state := .inFlight }, none, some 0)
      else
        (w, none, none)
    | .cancel =>
      ({ w with state := .cancelled }, some .cancelledOutcome, none)
    | .submitOk =>
      if w.state = .inFlight then
        if w.sendIndex + 1 < w.packets.length then
          ({ w with sendIndex := w.sendIndex + 1 }, none, some (w.sendIndex + 1))
        else
          ({ w with sendIndex := w.sendIndex + 1, state := .completed },
           some .success, none)
      else
        (w, none, none)
    | .submitErr =>
      if w.state = .inFlight then
        ({ w with state := .failed }, some .failure, none)
      else
        (w, none, none)

/-- Drive a write request through a list of events, collecting the
results reported to the caller and the fragment indices submitted to the
transport, both in order. -/
def wrRun (w : WriteRequest) : List WREvent → WriteRequest × List WROutcome × List Nat
  | [] => (w, [], [])
  | e :: es =>
    ((wrRun (wrStep w e).1 es).1,
     (wrStep w e).2.1.toList ++ (wrRun (wrStep w e).1 es).2.1,
     (wrStep w e).2.2.toList ++ (wrRun (wrStep w e).1 es).2.2)

/-- A freshly created write request: packets fragmented, zero send index,
state `PENDING`. -/
def mkWriteRequest (packets : List PacketSpec) : WriteRequest :=
  { packets := packets, sendIndex := 0, state := .pending }

/-- The mediums of `connections_enums.proto` selectable by
`BooleanMediumSelector` (`src/connections/implementation/mediums/bluetooth_classic_test.cc`,
appended `core_medium_selector.h` part). -/
inductive Medium where
  | WIFI_LAN
  | WIFI_DIRECT
  | WIFI_HOTSPOT
  | WEB_RTC
  | BLUETOOTH
  | BLE
  deriving DecidableEq

/-- `BooleanMediumSelector` from the source: one boolean per medium. -/
structure BooleanMediumSelector where
  bluetooth : Bool
  ble : Bool
  web_rtc : Bool
  wifi_lan : Bool
  wifi_hotspot : Bool
  wifi_direct : Bool
  deriving DecidableEq

/-- `BooleanMediumSelector::Any` from the source. -/
def BooleanMediumSelector.Any (s : BooleanMediumSelector) (value : Bool) : Bool :=
  s.bluetooth == value || s.ble == value || s.web_rtc == value ||
    s.wifi_lan == value || s.wifi_hotspot == value || s.wifi_direct == value

/-- `BooleanMediumSelector::Count` from the source. -/
def BooleanMediumSelector.Count (s : BooleanMediumSelector) (value : Bool) : Nat :=
  (if s.bluetooth == value then 1 else 0) + (if s.ble == value then 1 else 0) +
    (if s.wifi_lan == value then 1 else 0) +
    (if s.wifi_hotspot == value then 1 else 0) +
    (if s.wifi_direct == value then 1 else 0) +
    (if s.web_rtc == value then 1 else 0)

/-- `BooleanMediumSelector::GetMediums` from the source; mediums are
appended in order of decreasing preference. -/
def BooleanMediumSelector.GetMediums (s : BooleanMediumSelector) (value : Bool) :
    List Medium :=
  (if s.wifi_lan == value then [Medium.WIFI_LAN] else []) ++
    (if s.wifi_direct == value then [Medium.WIFI_DIRECT] else []) ++
    (if s.wifi_hotspot == value then [Medium.WIFI_HOTSPOT] else []) ++
    (if s.web_rtc == value then [Medium.WEB_RTC] else []) ++
    (if s.bluetooth == value then [Medium.BLUETOOTH] else []) ++
    (if s.ble == value then [Medium.BLE] else [])

/-- A hexadecimal digit as accepted by the UUID pattern of
`BluetoothClassicMedium::ConnectToService`. -/
def isHexDigit (c : Char) : Bool :=
  (decide ('0' ≤ c) && decide (c ≤ '9')) ||
    (decide ('a' ≤ c) && decide (c ≤ 'f')) ||
    (decide ('A' ≤ c) && decide (c ≤ 'F'))

/-- Character `c` at position `i` of a canonical 8-4-4-4-12 UUID: a dash
at positions 8, 13, 18 and 23, a hexadecimal digit everywhere else. -/
def uuidCharOk (i : Nat) (c : Char) : Bool :=
  if i = 8 ∨ i = 13 ∨ i = 18 ∨ i = 23 then c == '-' else isHexDigit c

/-- The canonical 8-4-4-4-12 hexadecimal UUID pattern matched by the
regex in `BluetoothClassicMedium::ConnectToService`
(`src/unnamed/part_001`). -/
def isCanonicalUuid (s : List Char) : Bool :=
  s.length == 36 && s.enum.all fun ic => uuidCharOk ic.1 ic.2

/-- The observable outcome of the argument-validation phase of
`BluetoothClassicMedium::ConnectToService`: either an early `nullptr`
return before any connection attempt, or entry into the connection logic
(device lookup and socket connect, which involve the platform and are
abstracted). -/
inductive ConnectResult where
  | nullNoAttempt
  | attemptConnection
  deriving DecidableEq

/-- The argument-validation prefix of
`BluetoothClassicMedium::ConnectToService` (`src/unnamed/part_001`, lines
138-164): an empty `service_uuid`, a `service_uuid` not matching the
canonical UUID pattern, and a null `cancellation_flag` each return
`nullptr` before any connection attempt, in that order. -/
def ConnectToService (serviceUuid : List Char) (cancellationFlagIsNull : Bool) :
    ConnectResult :=
  if serviceUuid.isEmpty then
    .nullNoAttempt
  else if !isCanonicalUuid serviceUuid then
    .nullNoAttempt
  else if cancellationFlagIsNull then
    .nullNoAttempt
  else
    .attemptConnection

theorem splitChunksAux_ne_nil (fuel : Nat) (payload : List Nat) (c : Nat) :
    splitChunksAux fuel payload c ≠ [] := by
  cases fuel with
  | zero => simp [splitChunksAux]
  | succ fuel =>
    simp only [splitChunksAux]
    split <;> simp

theorem splitChunksAux_flatten (fuel : Nat) (payload : List Nat) (c : Nat) :
    (splitChunksAux fuel payload c).flatten = payload := by
  induction fuel generalizing payload with
  | zero => simp [splitChunksAux]
  | succ fuel ih =>
    simp only [splitChunksAux]
    split
    · simp
    · simp [ih, List.take_append_drop]

theorem splitChunksAux_length (fuel : Nat) (payload : List Nat) (c : Nat)
    (hc : 0 < c) (hfuel : payload.length ≤ (fuel + 1) * c) :
    (splitChunksAux fuel payload c).length =
      if payload.length = 0 then 1 else (payload.length + c - 1) / c := by
  induction fuel generalizing payload with
  | zero =>
    simp only [splitChunksAux, List.length_singleton]
    have hle : payload.length ≤ c := by omega
    split
    · rfl
    · exact (Nat.div_eq_of_lt_le (by omega) (by omega)).symm
  | succ fuel ih =>
    have hmul : (fuel + 1 + 1) * c = (fuel + 1) * c + c := by ring
    simp only [splitChunksAux]
    split
    · rename_i hle
      simp only [List.length_singleton]
      split
      · rfl
      · exact (Nat.div_eq_of_lt_le (by omega) (by omega)).symm
    · rename_i hgt
      push_neg at hgt
      have hdrop : (payload.drop c).length = payload.length - c := by simp
      have ihh := ih (payload.drop c) (by omega)
      rw [hdrop] at ihh
      simp only [List.length_cons, ihh]
      have h0 : ¬(payload.length - c = 0) := by omega
      have h1 : ¬(payload.length = 0) := by omega
      simp only [h0, if_false, h1]
      have heq : payload.length + c - 1 = (payload.length - c + c - 1) + c := by omega
      rw [heq, Nat.add_div_right _ hc]

theorem splitChunksAux_dropLast (fuel : Nat) (payload : List Nat) (c : Nat)
    (_hc : 0 < c) (ch : List Nat)
    (hch : ch ∈ (splitChunksAux fuel payload c).dropLast) :
    ch.length = c := by
  induction fuel generalizing payload with
  | zero => simp [splitChunksAux] at hch
  | succ fuel ih =>
    simp only [splitChunksAux] at hch
    split at hch
    · simp at hch
    · rename_i hgt
      push_neg at hgt
      rw [List.dropLast_cons_of_ne_nil (splitChunksAux_ne_nil fuel (payload.drop c) c)]
        at hch
      rcases List.mem_cons.mp hch with h | h
      · subst h
        simp
        omega
      · exact ih (payload.drop c) h

theorem splitChunksAux_getLast (fuel : Nat) (payload : List Nat) (c : Nat)
    (hfuel : payload.length ≤ (fuel + 1) * c) (ch : List Nat)
    (hch : (splitChunksAux fuel payload c).getLast? = some ch) :
    ch.length ≤ c := by
  induction fuel generalizing payload with
  | zero =>
    simp only [splitChunksAux, List.getLast?_singleton, Option.some.injEq] at hch
    subst hch
    omega
  | succ fuel ih =>
    have hmul : (fuel + 1 + 1) * c = (fuel + 1) * c + c := by ring
    simp only [splitChunksAux] at hch
    split at hch
    · rename_i hle
      simp only [List.getLast?_singleton, Option.some.injEq] at hch
      subst hch
      omega
    · rename_i hgt
      push_neg at hgt
      obtain ⟨r, rs, hr⟩ := List.exists_cons_of_ne_nil
        (splitChunksAux_ne_nil fuel (payload.drop c) c)
      rw [hr, List.getLast?_cons_cons] at hch
      rw [← hr] at hch
      have := ih (payload.drop c) (by simp; omega)
      exact this hch

theorem markChunks_ne_nil (kind : PacketKind) (b : Bool) (ch : List Nat)
    (tl : List (List Nat)) : markChunks kind b (ch :: tl) ≠ [] := by
  cases tl <;> simp [markChunks]

theorem markChunks_length (kind : PacketKind) (b : Bool) (l : List (List Nat)) :
    (markChunks kind b l).length = l.length := by
  induction l generalizing b with
  | nil => rfl
  | cons ch tl ih =>
    cases tl with
    | nil => rfl
    | cons ch2 tl2 => simp [markChunks, ih false]

theorem markChunks_map_payload (kind : PacketKind) (b : Bool) (l : List (List Nat)) :
    (markChunks kind b l).map PacketSpec.payload = l := by
  induction l generalizing b with
  | nil => rfl
  | cons ch tl ih =>
    cases tl with
    | nil => rfl
    | cons ch2 tl2 => simp [markChunks, ih false]

theorem markChunks_head (kind : PacketKind) (b : Bool) (l : List (List Nat))
    (s : PacketSpec) (hs : (markChunks kind b l).head? = some s) :
    s.isFirst = b := by
  cases l with
  | nil => simp [markChunks] at hs
  | cons ch tl =>
    cases tl with
    | nil =>
      simp only [markChunks, List.head?_cons, Option.some.injEq] at hs
      subst hs
      rfl
    | cons ch2 tl2 =>
      simp only [markChunks, List.head?_cons, Option.some.injEq] at hs
      subst hs
      rfl

theorem markChunks_false_isFirst (kind : PacketKind) (l : List (List Nat))
    (s : PacketSpec) (hs : s ∈ markChunks kind false l) :
    s.isFirst = false := by
  induction l with
  | nil => simp [markChunks] at hs
  | cons ch tl ih =>
    cases tl with
    | nil =>
      simp only [markChunks, List.mem_singleton] at hs
      subst hs
      rfl
    | cons ch2 tl2 =>
      rcases List.mem_cons.mp hs with h | h
      · subst h
        rfl
      · exact ih h

theorem markChunks_tail (kind : PacketKind) (b : Bool) (l : List (List Nat)) :
    (markChunks kind b l).tail = markChunks kind false l.tail := by
  cases l with
  | nil => rfl
  | cons ch tl =>
    cases tl with
    | nil => rfl
    | cons ch2 tl2 => rfl

theorem markChunks_getLast (kind : PacketKind) (b : Bool) (l : List (List Nat))
    (s : PacketSpec) (hs : (markChunks kind b l).getLast? = some s) :
    s.isLast = true ∧ l.getLast? = some s.payload := by
  induction l generalizing b with
  | nil => simp [markChunks] at hs
  | cons ch tl ih =>
    cases tl with
    | nil =>
      simp only [markChunks, List.getLast?_singleton, Option.some.injEq] at hs
      subst hs
      exact ⟨rfl, rfl⟩
    | cons ch2 tl2 =>
      simp only [markChunks] at hs
      obtain ⟨r, rs, hr⟩ := List.exists_cons_of_ne_nil
        (markChunks_ne_nil kind false ch2 tl2)
      rw [hr, List.getLast?_cons_cons, ← hr] at hs
      obtain ⟨h1, h2⟩ := ih false hs
      refine ⟨h1, ?_⟩
      rw [List.getLast?_cons_cons]
      exact h2

theorem markChunks_dropLast (kind : PacketKind) (b : Bool) (l : List (List Nat))
    (s : PacketSpec) (hs : s ∈ (markChunks kind b l).dropLast) :
    s.isLast = false ∧ s.payload ∈ l.dropLast := by
  induction l generalizing b with
  | nil => simp [markChunks] at hs
  | cons ch tl ih =>
    cases tl with
    | nil => simp [markChunks] at hs
    | cons ch2 tl2 =>
      simp only [markChunks] at hs
      rw [List.dropLast_cons_of_ne_nil (markChunks_ne_nil kind false ch2 tl2)] at hs
      rcases List.mem_cons.mp hs with h | h
      · subst h
        refine ⟨rfl, ?_⟩
        rw [List.dropLast_cons_of_ne_nil (by simp)]
        exact List.mem_cons_self _ _
      · obtain ⟨h1, h2⟩ := ih false h
        refine ⟨h1, ?_⟩
        rw [List.dropLast_cons_of_ne_nil (by simp)]
        exact List.mem_cons_of_mem _ h2

/-- C2: `Packetize(kind, payload, max_packet_size)` fails with
`InvalidArgument` exactly when `chunk_size = max_packet_size − header_size
≤ 0`; otherwise it returns a non-empty ordered sequence of
`ceil(len(payload)/chunk_size)` packet specs (exactly one packet for a
zero-length payload), `is_first_packet` holds on the head and on no other
packet, `is_last_packet` holds on the last packet and on no other, every
packet before the last carries exactly `chunk_size` payload bytes, and
the last packet carries at most `chunk_size` bytes. -/
theorem c2_packetize_shape (kind : PacketKind) (payload : List Nat) (S : Nat) :
    (Packetize kind payload S = .error .invalidArgument ↔ S ≤ headerSize) ∧
    (∀ ps, Packetize kind payload S = .ok ps →
      ps ≠ [] ∧
      ps.length = (if payload.length = 0 then 1
        else (payload.length + (S - headerSize) - 1) / (S - headerSize)) ∧
      (∀ s, ps.head? = some s → s.isFirst = true) ∧
      (∀ s, s ∈ ps.tail → s.isFirst = false) ∧
      (∀ s, ps.getLast? = some s → s.isLast = true ∧
        s.payload.length ≤ S - headerSize) ∧
      (∀ s, s ∈ ps.dropLast → s.isLast = false ∧
        s.payload.length = S - headerSize)) := by
  constructor
  · unfold Packetize
    split
    · simp_all
    · simp_all
  · intro ps hps
    unfold Packetize at hps
    split at hps
    · exact absurd hps (by simp)
    · rename_i hS
      push_neg at hS
      simp only [Except.ok.injEq] at hps
      set c := S - headerSize with hc
      have hcpos : 0 < c := by omega
      have hfuel : payload.length ≤ (payload.length + 1) * c := by
        have := Nat.le_mul_of_pos_right (payload.length + 1) hcpos
        omega
      set chunks := splitChunksAux payload.length payload c with hchunks
      refine ⟨?_, ?_, ?_, ?_, ?_, ?_⟩
      · rw [← hps]
        cases hcase : chunks with
        | nil => exact absurd hcase (splitChunksAux_ne_nil _ _ _)
        | cons ch tl => exact markChunks_ne_nil kind true ch tl
      · rw [← hps, markChunks_length]
        exact splitChunksAux_length payload.length payload c hcpos hfuel
      · intro s hs
        rw [← hps] at hs
        exact markChunks_head kind true chunks s hs
      · intro s hs
        rw [← hps, markChunks_tail] at hs
        exact markChunks_false_isFirst kind chunks.tail s hs
      · intro s hs
        rw [← hps] at hs
        obtain ⟨h1, h2⟩ := markChunks_getLast kind true chunks s hs
        exact ⟨h1, splitChunksAux_getLast payload.length payload c hfuel _ h2⟩
      · intro s hs
        rw [← hps] at hs
        obtain ⟨h1, h2⟩ := markChunks_dropLast kind true chunks s hs
        exact ⟨h1, splitChunksAux_dropLast payload.length payload c hcpos _ h2⟩

theorem c2_packetize_shape_witness :
    ([{ kind := PacketKind.data, isFirst := true, isLast := false, payload := [1, 2] },
      { kind := PacketKind.data, isFirst := false, isLast := true, payload := [3] }] :
        List PacketSpec).length =
      (if ([1, 2, 3] : List Nat).length = 0 then 1
        else (([1, 2, 3] : List Nat).length + (4 - headerSize) - 1) / (4 - headerSize)) :=
  ((c2_packetize_shape PacketKind.data [1, 2, 3] 4).2 _ (by rfl)).2.1

theorem feed_continuation (kind : PacketKind) (chs : List (List Nat)) (hne : chs ≠ [])
    (acc : List Nat) (v : Nat) :
    feed { inProgress := true, buffer := acc, expectedNextCounter := v % spaceSize }
        (stampPackets v (markChunks kind false chs)) =
      (initReassembly,
       List.replicate (chs.length - 1) ReassemblyResult.incomplete ++
         [ReassemblyResult.complete (acc ++ chs.flatten)]) := by
  induction chs generalizing acc v with
  | nil => exact absurd rfl hne
  | cons ch tl ih =>
    cases tl with
    | nil =>
      simp [markChunks, stampPackets, feed, OnPacketReceived]
    | cons ch2 tl2 =>
      have hstep :
          OnPacketReceived
              { inProgress := true, buffer := acc, expectedNextCounter := v % spaceSize }
              { kind := kind, isFirst := false, isLast := false,
                counter := v % spaceSize, payload := ch } =
            ({ inProgress := true, buffer := acc ++ ch,
               expectedNextCounter := (v + 1) % spaceSize },
             ReassemblyResult.incomplete) := by
        simp [OnPacketReceived, Nat.mod_add_mod]
      simp only [markChunks, stampPackets, feed, hstep]
      rw [ih (by simp) (acc ++ ch) (v + 1)]
      simp [List.replicate_succ, List.append_assoc]

/-- C1: for every message `M` (the empty message included) and every
maximum packet size `S` with `S − header_size > 0`, feeding the ordered
packet sequence produced by `Packetize(M, S)` — counters stamped
consecutively from any generator value — into the reassembler in order
yields `Incomplete` on every fragment but the last and exactly one
`CompleteMessage` on the last, whose bytes equal `M`, leaving the
reassembly state cleared. -/
theorem c1_round_trip (kind : PacketKind) (M : List Nat) (S v0 : Nat)
    (hS : headerSize < S) :
    ∃ ps, Packetize kind M S = .ok ps ∧
      (feed initReassembly (stampPackets v0 ps)).2 =
        List.replicate (ps.length - 1) ReassemblyResult.incomplete ++
          [ReassemblyResult.complete M] ∧
      (feed initReassembly (stampPackets v0 ps)).1 = initReassembly := by
  have hok : Packetize kind M S =
      .ok (markChunks kind true (splitChunksAux M.length M (S - headerSize))) := by
    unfold Packetize
    split
    · omega
    · rfl
  refine ⟨_, hok, ?_⟩
  have hflat := splitChunksAux_flatten M.length M (S - headerSize)
  cases hcase : splitChunksAux M.length M (S - headerSize) with
  | nil => exact absurd hcase (splitChunksAux_ne_nil _ _ _)
  | cons c0 tl =>
    rw [hcase] at hflat
    cases tl with
    | nil =>
      have hM : M = c0 := by simpa using hflat.symm
      subst hM
      constructor
      · simp [markChunks, stampPackets, feed, OnPacketReceived, initReassembly]
      · simp [markChunks, stampPackets, feed, OnPacketReceived, initReassembly]
    | cons c1 tl2 =>
      have hstep :
          OnPacketReceived initReassembly
              { kind := kind, isFirst := true, isLast := false,
                counter := v0 % spaceSize, payload := c0 } =
            ({ inProgress := true, buffer := c0,
               expectedNextCounter := (v0 + 1) % spaceSize },
             ReassemblyResult.incomplete) := by
        simp [OnPacketReceived, initReassembly, Nat.mod_add_mod]
      have hcont := feed_continuation kind (c1 :: tl2) (by simp) c0 (v0 + 1)
      simp only [markChunks, stampPackets, feed, hstep, hcont]
      have hM : M = c0 ++ (c1 :: tl2).flatten := by simpa using hflat.symm
      subst hM
      constructor
      · simp [markChunks_length, List.replicate_succ]
      · trivial

theorem c1_round_trip_witness :
    headerSize < 4 ∧
    ∃ ps, Packetize PacketKind.data [1, 2, 3] 4 = .ok ps ∧
      (feed initReassembly (stampPackets 0 ps)).2 =
        List.replicate (ps.length - 1) ReassemblyResult.incomplete ++
          [ReassemblyResult.complete [1, 2, 3]] ∧
      (feed initReassembly (stampPackets 0 ps)).1 = initReassembly :=
  ⟨by decide, c1_round_trip PacketKind.data [1, 2, 3] 4 0 (by decide)⟩

/-- C3: a non-first packet received while in progress whose counter
differs from `expected_next_counter` yields `Error(SequenceGap)` and
discards the partial state; concretely, a counter that skips ahead by 2
after a first-fragment packet and a duplicated continuation packet (which
carries the previous counter, not the expected one) both trigger it, and
after the error a correctly-framed message reassembles normally. -/
theorem c3_sequence_gap :
    (∀ (st : ReassemblyState) (p : Packet), st.inProgress = true →
      p.isFirst = false → p.counter ≠ st.expectedNextCounter →
      OnPacketReceived st p =
        (initReassembly, ReassemblyResult.framingError FramingError.sequenceGap)) ∧
    feed initReassembly
        [{ kind := .data, isFirst := true, isLast := false, counter := 0, payload := [1] },
         { kind := .data, isFirst := false, isLast := true, counter := 2, payload := [2] },
         { kind := .data, isFirst := true, isLast := true, counter := 5, payload := [9] }] =
      (initReassembly,
       [ReassemblyResult.incomplete,
        ReassemblyResult.framingError FramingError.sequenceGap,
        ReassemblyResult.complete [9]]) ∧
    feed initReassembly
        [{ kind := .data, isFirst := true, isLast := false, counter := 0, payload := [1] },
         { kind := .data, isFirst := false, isLast := false, counter := 1, payload := [2] },
         { kind := .data, isFirst := false, isLast := false, counter := 1, payload := [2] }] =
      (initReassembly,
       [ReassemblyResult.incomplete,
        ReassemblyResult.incomplete,
        ReassemblyResult.framingError FramingError.sequenceGap]) := by
  refine ⟨?_, by decide, by decide⟩
  intro st p h1 h2 h3
  simp [OnPacketReceived, h1, h2, h3]

theorem c3_sequence_gap_witness :
    OnPacketReceived
        { inProgress := true, buffer := [7], expectedNextCounter := 3 }
        { kind := .data, isFirst := false, isLast := false, counter := 5, payload := [8] } =
      (initReassembly, ReassemblyResult.framingError FramingError.sequenceGap) :=
  c3_sequence_gap.1
    { inProgress := true, buffer := [7], expectedNextCounter := 3 }
    { kind := .data, isFirst := false, isLast := false, counter := 5, payload := [8] }
    (by decide) (by decide) (by decide)

/-- C5: reassembly state is established only by a first-fragment packet
and cleared by its matching last-fragment packet or by any framing error:
a first-fragment packet while in progress yields
`Error(UnexpectedFirstPacket)` and discards the prior partial state, a
non-first packet while not in progress yields
`Error(UnexpectedContinuation)`, every framing error leaves the cleared
state, and from the cleared state the next first-fragment packet starts a
fresh message. -/
theorem c5_reassembly_invariant :
    (∀ (st : ReassemblyState) (p : Packet), st.inProgress = true → p.isFirst = true →
      OnPacketReceived st p =
        (initReassembly, ReassemblyResult.framingError FramingError.unexpectedFirstPacket)) ∧
    (∀ (st : ReassemblyState) (p : Packet), st.inProgress = false → p.isFirst = false →
      OnPacketReceived st p =
        (initReassembly, ReassemblyResult.framingError FramingError.unexpectedContinuation)) ∧
    (∀ (st : ReassemblyState) (p : Packet), st.inProgress = false →
      (OnPacketReceived st p).1.inProgress = true →
      p.isFirst = true ∧ p.isLast = false) ∧
    (∀ (st : ReassemblyState) (p : Packet), st.inProgress = true →
      (OnPacketReceived st p).1.inProgress = false →
      (∃ m, (OnPacketReceived st p).2 = ReassemblyResult.complete m ∧ p.isLast = true) ∨
      (∃ e, (OnPacketReceived st p).2 = ReassemblyResult.framingError e)) ∧
    (∀ (st : ReassemblyState) (p : Packet) (e : FramingError),
      (OnPacketReceived st p).2 = ReassemblyResult.framingError e →
      (OnPacketReceived st p).1 = initReassembly) ∧
    (∀ p : Packet, p.isFirst = true → p.isLast = false →
      OnPacketReceived initReassembly p =
        ({ inProgress := true, buffer := p.payload,
           expectedNextCounter := (p.counter + 1) % spaceSize },
         ReassemblyResult.incomplete)) := by
  refine ⟨?_, ?_, ?_, ?_, ?_, ?_⟩
  · intro st p h1 h2
    simp [OnPacketReceived, h1, h2]
  · intro st p h1 h2
    simp [OnPacketReceived, h1, h2]
  · intro st p h1 h2
    unfold OnPacketReceived at h2
    by_cases hf : p.isFirst = true
    · refine ⟨hf, ?_⟩
      by_cases hl : p.isLast = true
      · simp [hf, hl, h1, initReassembly] at h2
      · simpa using hl
    · simp only [Bool.not_eq_true] at hf
      simp [hf, h1, initReassembly] at h2
  · intro st p h1 h2
    unfold OnPacketReceived at h2 ⊢
    by_cases hf : p.isFirst = true
    · right
      exact ⟨FramingError.unexpectedFirstPacket, by simp [hf, h1]⟩
    · simp only [Bool.not_eq_true] at hf
      by_cases hc : p.counter = st.expectedNextCounter
      · by_cases hl : p.isLast = true
        · left
          exact ⟨st.buffer ++ p.payload, by simp [hf, h1, hc, hl], hl⟩
        · simp only [Bool.not_eq_true] at hl
          simp [hf, h1, hc, hl] at h2
      · right
        exact ⟨FramingError.sequenceGap, by simp [hf, h1, hc]⟩
  · intro st p e he
    unfold OnPacketReceived at he ⊢
    by_cases hf : p.isFirst = true <;> by_cases hp : st.inProgress = true
    · simp [hf, hp]
    · simp only [Bool.not_eq_true] at hp
      by_cases hl : p.isLast = true
      · simp [hf, hp, hl]
      · simp only [Bool.not_eq_true] at hl
        simp [hf, hp, hl] at he
    · by_cases hc : p.counter = st.expectedNextCounter
      · by_cases hl : p.isLast = true
        · simp [hf, hp, hc, hl] at he
        · simp only [Bool.not_eq_true] at hl
          simp [hf, hp, hc, hl] at he
      · simp [hf, hp, hc]
    · simp only [Bool.not_eq_true] at hp
      simp [hf, hp]
  · intro p h1 h2
    simp [OnPacketReceived, h1, h2, initReassembly]

theorem c5_reassembly_invariant_witness :
    OnPacketReceived
        { inProgress := true, buffer := [7], expectedNextCounter := 3 }
        { kind := .data, isFirst := true, isLast := false, counter := 0, payload := [8] } =
      (initReassembly, ReassemblyResult.framingError FramingError.unexpectedFirstPacket) :=
  c5_reassembly_invariant.1
    { inProgress := true, buffer := [7], expectedNextCounter := 3 }
    { kind := .data, isFirst := true, isLast := false, counter := 0, payload := [8] }
    (by decide) (by decide)

theorem runNext_head (g : SequenceNumberGenerator) (n : Nat) (hn : 0 < n) :
    (runNext g n).get? 0 = some g.next_value := by
  cases n with
  | zero => omega
  | succ n => rfl

/-- C8: successive `Next()` calls on one generator without a reset return
values that each equal the previous value plus 1 modulo the cyclic space
size, the initial value on a new logical connection is 0, and `Reset()`
returns `next_value` to the initial value regardless of prior state. -/
theorem c8_sequence_generator :
    (∀ (g : SequenceNumberGenerator) (n i : Nat), i + 1 < n →
      (runNext g n).get? (i + 1) =
        ((runNext g n).get? i).map fun u => (u + 1) % spaceSize) ∧
    SequenceNumberGenerator.initial.next_value = 0 ∧
    (∀ g : SequenceNumberGenerator, g.Reset = SequenceNumberGenerator.initial) := by
  refine ⟨?_, rfl, fun g => rfl⟩
  intro g n i h
  induction i generalizing g n with
  | zero =>
    cases n with
    | zero => omega
    | succ n =>
      simp only [runNext, List.get?_cons_succ, List.get?_cons_zero, Option.map_some]
      rw [runNext_head _ n (by omega)]
      rfl
  | succ j ih =>
    cases n with
    | zero => omega
    | succ n =>
      simp only [runNext, List.get?_cons_succ]
      exact ih _ n (by omega)

theorem c8_sequence_generator_witness :
    (runNext { next_value := 6 } 4).get? 2 =
      ((runNext { next_value := 6 } 4).get? 1).map fun u => (u + 1) % spaceSize :=
  c8_sequence_generator.1 { next_value := 6 } 4 1 (by decide)

/-- C7: `Packet.Encode` fails with `InvalidArgument` exactly when
`payload.length + header_size > max_packet_size` or the counter exceeds
the cyclic space, and otherwise deterministically returns the wire bytes;
`Packet.Decode` fails with `MalformedPacket` exactly when the input is
shorter than the header or a reserved header bit holds an unrecognized
(non-zero) value — never silently ignoring reserved-bit patterns.  Both
are pure functions of their inputs. -/
theorem c7_encode_decode :
    (∀ (kind : PacketKind) (f l : Bool) (counter : Nat) (payload : List Nat)
        (maxS : Nat),
      Packet.Encode kind f l counter payload maxS = .error .invalidArgument ↔
        (maxS < payload.length + headerSize ∨ spaceSize ≤ counter)) ∧
    (∀ (kind : PacketKind) (f l : Bool) (counter : Nat) (payload : List Nat)
        (maxS : Nat),
      payload.length + headerSize ≤ maxS → counter < spaceSize →
      Packet.Encode kind f l counter payload maxS =
        .ok (encodeHeaderByte kind f l counter :: 0 :: payload)) ∧
    (∀ bytes : List Nat,
      Packet.Decode bytes = .error .malformedPacket ↔
        (bytes.length < headerSize ∨ reservedBitsOk bytes = false)) := by
  refine ⟨?_, ?_, ?_⟩
  · intro kind f l counter payload maxS
    unfold Packet.Encode
    constructor
    · intro h
      by_cases h1 : maxS < payload.length + headerSize
      · exact Or.inl h1
      · by_cases h2 : spaceSize ≤ counter
        · exact Or.inr h2
        · simp [h1, h2] at h
    · intro h
      rcases h with h | h
      · simp [h]
      · by_cases h1 : maxS < payload.length + headerSize
        · simp [h1]
        · simp [h1, h]
  · intro kind f l counter payload maxS h1 h2
    unfold Packet.Encode
    have hn1 : ¬(maxS < payload.length + headerSize) := by omega
    have hn2 : ¬(spaceSize ≤ counter) := by omega
    simp [hn1, hn2]
  · intro bytes
    match bytes with
    | [] => simp [Packet.Decode, reservedBitsOk, headerSize]
    | [b0] => simp [Packet.Decode, reservedBitsOk, headerSize]
    | b0 :: b1 :: rest =>
      have hlen : ¬((b0 :: b1 :: rest).length < headerSize) := by
        simp only [List.length_cons, headerSize]
        omega
      by_cases hres : (b0 % 4 == 0 && b1 == 0) = true
      · simp only [Packet.Decode, reservedBitsOk, hres, if_true]
        simp only [List.length_cons, headerSize]
        simp
      · simp only [Bool.not_eq_true] at hres
        simp only [Packet.Decode, reservedBitsOk, hres, if_false]
        simp [hres]

theorem c7_encode_decode_witness :
    ([0, 0, 7] : List Nat).length + headerSize ≤ 5 ∧ (3 : Nat) < spaceSize ∧
    Packet.Encode PacketKind.control false true 3 [0, 0, 7] 5 =
      .ok (encodeHeaderByte PacketKind.control false true 3 :: 0 :: [0, 0, 7]) :=
  ⟨by decide, by decide,
   c7_encode_decode.2.1 PacketKind.control false true 3 [0, 0, 7] 5
     (by decide) (by decide)⟩

theorem wrStep_terminal (w : WriteRequest) (e : WREvent)
    (h : isTerminal w.state = true) : wrStep w e = (w, none, none) := by
  simp [wrStep, h]

theorem wrRun_terminal (w : WriteRequest) (es : List WREvent)
    (h : isTerminal w.state = true) : wrRun w es = (w, [], []) := by
  induction es with
  | nil => rfl
  | cons e es ih => simp [wrRun, wrStep_terminal w e h, ih]

theorem wrStep_emits (w : WriteRequest) (e : WREvent)
    (h : isTerminal w.state = false) :
    (wrStep w e).2.1.toList.length =
      if isTerminal (wrStep w e).1.state then 1 else 0 := by
  unfold wrStep
  rw [h]
  simp only [Bool.false_eq_true, if_false]
  cases e with
  | start =>
    by_cases hp : w.state = WRState.pending
    · simp [hp, isTerminal]
    · simp [hp, h]
  | cancel => simp [isTerminal]
  | submitOk =>
    by_cases hp : w.state = WRState.inFlight
    · by_cases hlt : w.sendIndex + 1 < w.packets.length
      · simp [hp, hlt, isTerminal]
      · simp [hp, hlt, isTerminal]
    · simp [hp, h]
  | submitErr =>
    by_cases hp : w.state = WRState.inFlight
    · simp [hp, isTerminal]
    · simp [hp, h]

theorem wrRun_emits (w : WriteRequest) (es : List WREvent)
    (h : isTerminal w.state = false) :
    (wrRun w es).2.1.length =
      if isTerminal (wrRun w es).1.state then 1 else 0 := by
  induction es generalizing w with
  | nil => simp [wrRun, h]
  | cons e es ih =>
    by_cases ht : isTerminal (wrStep w e).1.state = true
    · have hlen := wrStep_emits w e h
      rw [ht] at hlen
      simp only [if_true] at hlen
      simp [wrRun, wrRun_terminal (wrStep w e).1 es ht, hlen, ht]
    · simp only [Bool.not_eq_true] at ht
      have hlen := wrStep_emits w e h
      rw [ht] at hlen
      simp only [Bool.false_eq_true, if_false] at hlen
      simp [wrRun, hlen, ih (wrStep w e).1 ht]

/-- C4: for every write request and every sequence of events (`Start`,
submission results, `Cancel` calls, a `Cancel` racing the last packet's
pending result included), the result callback fires at most once, it has
fired exactly once precisely when the request has reached a terminal
state, the result is one of completed/failed/cancelled by construction,
and no transition of `PENDING → IN_FLIGHT → {COMPLETED | FAILED |
CANCELLED}` ever leaves a terminal state. -/
theorem c4_single_outcome :
    (∀ (packets : List PacketSpec) (events : List WREvent),
      (wrRun (mkWriteRequest packets) events).2.1.length ≤ 1) ∧
    (∀ (packets : List PacketSpec) (events : List WREvent),
      (wrRun (mkWriteRequest packets) events).2.1.length = 1 ↔
        isTerminal (wrRun (mkWriteRequest packets) events).1.state = true) ∧
    (∀ (w : WriteRequest) (e : WREvent), isTerminal w.state = true →
      wrStep w e = (w, none, none)) := by
  have hpend : ∀ packets : List PacketSpec,
      isTerminal (mkWriteRequest packets).state = false := fun _ => rfl
  refine ⟨?_, ?_, wrStep_terminal⟩
  · intro packets events
    rw [wrRun_emits _ _ (hpend packets)]
    split <;> omega
  · intro packets events
    rw [wrRun_emits _ _ (hpend packets)]
    split <;> simp_all

theorem c4_single_outcome_witness :
    wrStep { packets := [], sendIndex := 0, state := WRState.completed } WREvent.cancel =
      ({ packets := [], sendIndex := 0, state := WRState.completed }, none, none) :=
  c4_single_outcome.2.2
    { packets := [], sendIndex := 0, state := WRState.completed }
    WREvent.cancel (by decide)

theorem wrRun_append (w : WriteRequest) (es1 es2 : List WREvent) :
    wrRun w (es1 ++ es2) =
      ((wrRun (wrRun w es1).1 es2).1,
       (wrRun w es1).2.1 ++ (wrRun (wrRun w es1).1 es2).2.1,
       (wrRun w es1).2.2 ++ (wrRun (wrRun w es1).1 es2).2.2) := by
  induction es1 generalizing w with
  | nil => simp [wrRun]
  | cons e es ih => simp [wrRun, ih (wrStep w e).1, List.append_assoc]

theorem wrRun_submitOks (pkts : List PacketSpec) (j m : Nat)
    (h : j + m < pkts.length) :
    wrRun { packets := pkts, sendIndex := j, state := WRState.inFlight }
        (List.replicate m WREvent.submitOk) =
      ({ packets := pkts, sendIndex := j + m, state := WRState.inFlight },
       [], List.range' (j + 1) m) := by
  induction m generalizing j with
  | zero => simp [wrRun, List.range']
  | succ m ih =>
    have hstep : wrStep { packets := pkts, sendIndex := j, state := WRState.inFlight }
        WREvent.submitOk =
        ({ packets := pkts, sendIndex := j + 1, state := WRState.inFlight },
         none, some (j + 1)) := by
      have hlt : j + 1 < pkts.length := by omega
      simp [wrStep, isTerminal, hlt]
    have ihh := ih (j + 1) (by omega)
    simp only [List.replicate_succ, wrRun, hstep, ihh]
    have hidx : j + 1 + m = j + (m + 1) := by omega
    rw [hidx, List.range'_succ]
    simp

/-- C6: a write request over `n > 1` packets whose `k`-th fragment's
transport submission reports an error (after `k − 1` successes)
transitions to `FAILED`, reports exactly one `FAILED` result and never a
`COMPLETED` one — whatever events follow — and the only fragments ever
submitted are `0 .. k−1` (fragments `1..k` in 1-based numbering): none of
fragments `k+1..n` is submitted. -/
theorem c6_failure_mid_sequence (pkts : List PacketSpec) (k : Nat)
    (rest : List WREvent) (_hn : 2 ≤ pkts.length) (h1 : 1 ≤ k)
    (h2 : k ≤ pkts.length) :
    wrRun (mkWriteRequest pkts)
        (WREvent.start ::
          (List.replicate (k - 1) WREvent.submitOk ++ WREvent.submitErr :: rest)) =
      ({ packets := pkts, sendIndex := k - 1, state := WRState.failed },
       [WROutcome.failure], List.range k) := by
  have hstart : wrStep (mkWriteRequest pkts) WREvent.start =
      ({ packets := pkts, sendIndex := 0, state := WRState.inFlight },
       none, some 0) := by
    simp [wrStep, mkWriteRequest, isTerminal]
  have hoks := wrRun_submitOks pkts 0 (k - 1) (by omega)
  have herr : wrStep
      ({ packets := pkts, sendIndex := 0 + (k - 1), state := WRState.inFlight } :
        WriteRequest) WREvent.submitErr =
      ({ packets := pkts, sendIndex := 0 + (k - 1), state := WRState.failed },
       some WROutcome.failure, none) := by
    simp [wrStep, isTerminal]
  have hrest := wrRun_terminal
    ({ packets := pkts, sendIndex := 0 + (k - 1), state := WRState.failed } :
      WriteRequest) rest rfl
  have hrange : List.range k = 0 :: List.range' 1 (k - 1) := by
    rw [List.range_eq_range']
    conv_lhs => rw [show k = (k - 1) + 1 by omega]
    rw [List.range'_succ]
  simp only [wrRun, hstart, wrRun_append, hoks, herr, hrest]
  simp [hrange]

theorem c6_failure_mid_sequence_witness :
    wrRun (mkWriteRequest
        [{ kind := .data, isFirst := true, isLast := false, payload := [1] },
         { kind := .data, isFirst := false, isLast := true, payload := [2] }])
        (WREvent.start ::
          (List.replicate (2 - 1) WREvent.submitOk ++ WREvent.submitErr :: [])) =
      ({ packets :=
          [{ kind := .data, isFirst := true, isLast := false, payload := [1] },
           { kind := .data, isFirst := false, isLast := true, payload := [2] }],
         sendIndex := 2 - 1, state := WRState.failed },
       [WROutcome.failure], List.range 2) :=
  c6_failure_mid_sequence
    [{ kind := .data, isFirst := true, isLast := false, payload := [1] },
     { kind := .data, isFirst := false, isLast := true, payload := [2] }]
    2 [] (by decide) (by decide) (by decide)

/-- C9: for every `BooleanMediumSelector` `s` and boolean `v`, `s.Any v`
holds exactly when `s.GetMediums v` is non-empty (both are determined by
whether at least one of the six medium fields equals `v`), and
`s.GetMediums v` has exactly `s.Count v` elements. -/
theorem c9_medium_selector (s : BooleanMediumSelector) (v : Bool) :
    (s.Any v = true ↔ s.GetMediums v ≠ []) ∧
    (s.GetMediums v).length = s.Count v := by
  obtain ⟨b1, b2, b3, b4, b5, b6⟩ := s
  revert v b1 b2 b3 b4 b5 b6
  decide

/-- C10: `BluetoothClassicMedium::ConnectToService` returns `nullptr`
without attempting a connection exactly when the `service_uuid` is empty,
or does not match the canonical 8-4-4-4-12 hexadecimal UUID pattern, or
the `cancellation_flag` is null. -/
theorem c10_connect_to_service (serviceUuid : List Char)
    (cancellationFlagIsNull : Bool) :
    ConnectToService serviceUuid cancellationFlagIsNull = ConnectResult.nullNoAttempt ↔
      (serviceUuid = [] ∨ isCanonicalUuid serviceUuid = false ∨
        cancellationFlagIsNull = true) := by
  unfold ConnectToService
  by_cases h1 : serviceUuid.isEmpty = true
  · simp only [h1, if_true]
    simp [List.isEmpty_iff.mp h1]
  · simp only [Bool.not_eq_true] at h1
    simp only [h1, Bool.false_eq_true, if_false]
    have hne : ¬(serviceUuid = []) := by
      intro hc
      subst hc
      simp [List.isEmpty] at h1
    by_cases h2 : isCanonicalUuid serviceUuid = true
    · simp only [h2, Bool.not_true, Bool.false_eq_true, if_false]
      by_cases h3 : cancellationFlagIsNull = true
      · simp [h3, hne, h2]
      · simp only [Bool.not_eq_true] at h3
        simp [h3, hne, h2]
    · simp only [Bool.not_eq_true] at h2
      simp [h2, hne]
